import Mathlib

namespace Relay

inductive ActorType
  | human
  | agent
  | system
deriving DecidableEq, Repr

structure EventEnvelope where
  eventId : String
  traceId : String
  sessionKey : String
  sourceChannel : String
  sourceChatId : String
  sourceThreadId : String
  sourceMessageId : String
  originActorType : ActorType
  originActorId : String
  text : String
  hopCount : Nat
  seenAgents : List String
  createdAt : Int
  emittedByAgentId : Option String
  emittedEventId : Option String
deriving DecidableEq, Repr

/-- Association-list lookup modelling JavaScript `Map.prototype.get`:
the value stored at the first (and only) entry whose key equals `k`. -/
def assocGet {α : Type} (m : List (String × α)) (k : String) : Option α :=
  (m.find? (fun p => decide (p.1 = k))).map (·.2)

/-- Association-list update modelling JavaScript `Map.prototype.set`:
replaces the value of the first (and, keys being unique in a Map, only)
matching entry in place, keeping its position; otherwise appends a new entry
at the end (Map insertion order). -/
def assocSet {α : Type} : List (String × α) → String → α → List (String × α)
  | [], k, v => [(k, v)]
  | p :: rest, k, v => if p.1 = k then (k, v) :: rest else p :: assocSet rest k v

/-- In-memory session store of `src/src/store.ts`: a Map from sessionKey to the
ordered list of appended events, plus the global set of seen eventIds
(modelled as a list, membership only). -/
structure Store where
  eventsBySession : List (String × List EventEnvelope)
  seenEventIds : List String
deriving DecidableEq, Repr

def Store.emptyStore : Store := ⟨[], []⟩

/-- Operation `Store.list` of `src/src/store.ts`: the session's events, `[]` when absent. -/
def Store.list (st : Store) (sessionKey : String) : List EventEnvelope :=
  (assocGet st.eventsBySession sessionKey).getD []

/-- Operation `Store.append` of `src/src/store.ts`: refuses an already-seen eventId,
otherwise records the id and pushes the event at the end of its session list.
Returns the boolean result paired with the updated store. -/
def Store.append (st : Store) (evt : EventEnvelope) : Bool × Store :=
  if evt.eventId ∈ st.seenEventIds then (false, st)
  else
    (true,
      { eventsBySession :=
          assocSet st.eventsBySession evt.sessionKey (st.list evt.sessionKey ++ [evt]),
        seenEventIds := evt.eventId :: st.seenEventIds })

/-- All events in the store, sessions in Map insertion order (the iteration
order of `eventsBySession.values()` in `Store.recentByTrace`). -/
def Store.allEvents (st : Store) : List EventEnvelope :=
  (st.eventsBySession.map Prod.snd).flatten

/-- Stable insertion of an event into a list sorted by `createdAt`
(the event goes after every element with `createdAt ≤` its own). -/
def insertByCreatedAt (e : EventEnvelope) : List EventEnvelope → List EventEnvelope
  | [] => [e]
  | y :: ys => if e.createdAt ≤ y.createdAt then e :: y :: ys else y :: insertByCreatedAt e ys

/-- Stable sort by `createdAt`, modelling `Array.prototype.sort` with the
comparator `(a, b) => a.createdAt - b.createdAt` (stable per ES2019). -/
def sortByCreatedAt : List EventEnvelope → List EventEnvelope
  | [] => []
  | x :: xs => insertByCreatedAt x (sortByCreatedAt xs)

/-- Operation `Store.recentByTrace` of `src/src/store.ts`: every event of any session with
the given traceId and `now - createdAt ≤ withinMs`, sorted by `createdAt`.
`now` stands for `Date.now()` at the moment of the call. -/
def Store.recentByTrace (st : Store) (now : Int) (traceId : String) (withinMs : Int) :
    List EventEnvelope :=
  sortByCreatedAt
    ((st.allEvents).filter
      (fun e => decide (e.traceId = traceId) && decide (now - e.createdAt ≤ withinMs)))

/-- The character class of the JavaScript regular-expression `\s` (whitespace):
tab, line feed, vertical tab, form feed, carriage return, space, NBSP, Ogham
space mark, the en-quad..hair-space range, line/paragraph separator, narrow
no-break space, medium mathematical space, ideographic space, and BOM. -/
def isJsWhitespace (c : Char) : Bool :=
  c.toNat ∈ [9, 10, 11, 12, 13, 32, 160, 0x1680, 0x2028, 0x2029, 0x202f, 0x205f, 0x3000, 0xfeff]
    || (0x2000 ≤ c.toNat && c.toNat ≤ 0x200a)

/-- One pass of `String.prototype.replace(/\s+/g, ' ')` over the characters:
each maximal run of whitespace becomes a single space.  The flag records
whether the previous character belonged to a whitespace run. -/
def collapseWsAux : Bool → List Char → List Char
  | _, [] => []
  | prevWs, c :: cs =>
    if isJsWhitespace c then
      if prevWs then collapseWsAux true cs else ' ' :: collapseWsAux true cs
    else c :: collapseWsAux false cs

/-- Removes a trailing whitespace run (the right half of `String.prototype.trim`). -/
def trimRightWs : List Char → List Char
  | [] => []
  | c :: cs =>
    match trimRightWs cs with
    | [] => if isJsWhitespace c then [] else [c]
    | r => c :: r

/-- Model of `String.prototype.trim`: strip whitespace from both ends. -/
def trimWs (l : List Char) : List Char := trimRightWs (l.dropWhile isJsWhitespace)

/-- The character list of `normalize` in `src/src/loopGuard.ts`:
`s.toLowerCase().replace(/\s+/g, ' ').trim()`.  `Char.toLower` models
`toLowerCase` on the ASCII range, the only case mapping the texts exercise. -/
def normChars (s : String) : List Char :=
  trimWs (collapseWsAux false (s.data.map Char.toLower))

/-- Function `normalize` of `src/src/loopGuard.ts` as a string. -/
def normalizeText (s : String) : String := String.mk (normChars s)

/-- Model of `String.prototype.split(' ')` (single-character separator): splitting an
empty sequence yields one empty piece, exactly as in JavaScript where
`"".split(' ')` is `[""]`. -/
def splitSp : List Char → List (List Char)
  | [] => [[]]
  | c :: cs =>
    match splitSp cs with
    | [] => [[]]
    | t :: ts => if c = ' ' then [] :: t :: ts else (c :: t) :: ts

/-- Function `jaccard` of `src/src/loopGuard.ts`: token sets of the two normalized,
space-split strings; `|A ∩ B| / |A ∪ B|` as a rational, with a guard returning
0 when the union is empty (which in fact never fires, because `splitSp`
always produces at least one piece). -/
def jaccard (a b : String) : ℚ :=
  let sa := (splitSp (normChars a)).dedup
  let sb := (splitSp (normChars b)).dedup
  let inter := (sa.filter (fun x => decide (x ∈ sb))).length
  let union := (sa ++ sb).dedup.length
  if union = 0 then 0 else mkRat inter union

/-- The reference Jaccard of the specification, followed to the letter:
lowercase, collapse whitespace runs, trim, split on space, form the sets of
tokens (a whitespace-only string has no tokens), `|A ∩ B| / |A ∪ B|`, defined
as 0 whenever the union is empty. -/
def jaccardRef (a b : String) : ℚ :=
  let ta := ((splitSp (normChars a)).filter (fun x => decide (x ≠ []))).dedup
  let tb := ((splitSp (normChars b)).filter (fun x => decide (x ≠ []))).dedup
  let inter := (ta.filter (fun x => decide (x ∈ tb))).length
  let union := (ta ++ tb).dedup.length
  if union = 0 then 0 else mkRat inter union

/-- Router decision produced by the loop guard (`src/src/types.ts`);
`confidence` is a JavaScript number, modelled as a rational. -/
structure RouterDecision where
  isErrorLoop : Bool
  reason : String
  confidence : ℚ
deriving DecidableEq, Repr

/-- The decision returned when no loop pattern matches (`defaultDecision`). -/
def defaultDecision : RouterDecision :=
  { isErrorLoop := false, reason := "accepted", confidence := mkRat 6 10 }

/-- Loop-guard configuration: `LOOP_MAX_PER_MINUTE` (default 6),
`LOOP_DELAY_DEFAULT_MS` (default 2000), `LOOP_DELAY_BURST_MS`
(defaulting to the default delay), as read in `index.ts`. -/
structure LoopGuardConfig where
  maxPerMinute : Nat
  delayDefaultMs : Int
  delayBurstMs : Int
deriving DecidableEq, Repr

/-- The configuration obtained from the environment defaults. -/
def defaultLoopGuardConfig : LoopGuardConfig :=
  { maxPerMinute := 6, delayDefaultMs := 2000, delayBurstMs := 2000 }

/-- Modelled from the spec: the current `LoopGuard.evaluate` — the
three-argument `LoopGuard` with configurable `delayDefaultMs`/`delayBurstMs`
constructed by `index.ts` and asserted by `test/loopGuard.test.js` — is not
present under src/; `src/src/loopGuard.ts` is an earlier draft with hard-coded
delays and a language-model fallback that the spec marks out of scope.
Algorithm per spec §4.4, first match wins: (1) collect the last minute of the
candidate's trace; (2) rate cap: at least `maxPerMinute` recent events returns
the burst delay with confidence 0.95; (3) repetition: of the last 4 recent
events, at least 3 present and at least 2 with Jaccard similarity ≥ 0.95 to
the candidate's text returns the default delay with confidence 0.8;
(4) otherwise no delay and the accepted decision. -/
def evaluateGuard (cfg : LoopGuardConfig) (st : Store) (now : Int)
    (candidate : EventEnvelope) : Int × RouterDecision :=
  let recentTrace := st.recentByTrace now candidate.traceId 60000
  if cfg.maxPerMinute ≤ recentTrace.length then
    (cfg.delayBurstMs,
      { isErrorLoop := true,
        reason := "max " ++ toString cfg.maxPerMinute ++ " loop events per minute exceeded; delaying",
        confidence := mkRat 95 100 })
  else
    let lastFour := recentTrace.drop (recentTrace.length - 4)
    if 3 ≤ lastFour.length then
      if 2 ≤ (lastFour.filter (fun e => decide (mkRat 95 100 ≤ jaccard e.text candidate.text))).length then
        (cfg.delayDefaultMs,
          { isErrorLoop := true,
            reason := "near-identical repeated outputs detected; delayed for safety",
            confidence := mkRat 8 10 })
      else (0, defaultDecision)
    else (0, defaultDecision)

inductive RegistrationStatus
  | pending
  | approved
  | rejected
deriving DecidableEq, Repr

/-- Agent registration record (`src/src/adminRoutes.ts`). -/
structure AgentRegistration where
  agentId : String
  displayName : Option String
  callbackUrl : String
  callbackSecret : Option String
  requestedSessionKeys : List String
  registeredAt : Int
  status : RegistrationStatus
deriving DecidableEq, Repr

/-- The shared whitelist state (`WhitelistState` of `src/src/adminRoutes.ts`);
the JavaScript Sets and Maps are modelled as lists and association lists. -/
structure WhitelistState where
  approvedAgents : List String
  sessionsByAgent : List (String × List String)
  registrations : List (String × AgentRegistration)
  seenEmittedEventIds : List String
deriving DecidableEq, Repr

def WhitelistState.emptyWhitelist : WhitelistState := ⟨[], [], [], []⟩

/-- Function `canAgentAccessSession` of `index.ts`: approved-set membership, then
membership of the sessionKey in the agent's grant set (false when the grant
map has no entry).  It never consults the registration's status. -/
def canAgentAccessSession (w : WhitelistState) (agentId sessionKey : String) : Bool :=
  decide (agentId ∈ w.approvedAgents)
    && decide (sessionKey ∈ (assocGet w.sessionsByAgent agentId).getD [])

/-- Function `getApprovedRecipients` of `index.ts`: iterate the approved set in
insertion order, keep agents that can access the session and whose
registration exists with status approved. -/
def getApprovedRecipients (w : WhitelistState) (sessionKey : String) : List AgentRegistration :=
  w.approvedAgents.filterMap (fun agentId =>
    if canAgentAccessSession w agentId sessionKey then
      match assocGet w.registrations agentId with
      | some reg => if reg.status = RegistrationStatus.approved then some reg else none
      | none => none
    else none)

/-- Validated body of `POST /agents/register`. -/
structure RegisterPayload where
  agentId : String
  displayName : Option String
  callbackUrl : String
  callbackSecret : Option String
  requestedSessionKeys : List String
deriving DecidableEq, Repr

/-- The handler of `POST /agents/register`: overwrite the registration for the
agentId with a fresh record of status pending; `approvedAgents` and
`sessionsByAgent` are untouched. -/
def registerAgent (w : WhitelistState) (p : RegisterPayload) (now : Int) : WhitelistState :=
  { w with
    registrations :=
      assocSet w.registrations p.agentId
        { agentId := p.agentId, displayName := p.displayName, callbackUrl := p.callbackUrl,
          callbackSecret := p.callbackSecret, requestedSessionKeys := p.requestedSessionKeys,
          registeredAt := now, status := RegistrationStatus.pending } }

/-- The handler of `POST /admin/agents/approve`: requires an existing
registration (`none` models the 404), adds the agent to the approved set
(`Set.add`: no move when already present), replaces its session grants, and
marks the stored registration approved with the granted keys. -/
def approveAgent (w : WhitelistState) (agentId : String) (sessionKeys : List String) :
    Option WhitelistState :=
  match assocGet w.registrations agentId with
  | none => none
  | some reg =>
    some
      { w with
        approvedAgents :=
          if agentId ∈ w.approvedAgents then w.approvedAgents else w.approvedAgents ++ [agentId],
        sessionsByAgent := assocSet w.sessionsByAgent agentId sessionKeys,
        registrations :=
          assocSet w.registrations agentId
            { reg with status := RegistrationStatus.approved, requestedSessionKeys := sessionKeys } }

inductive DeliveryStatus
  | success
  | retry
  | failed
deriving DecidableEq, Repr, Inhabited

/-- One attempt of `deliverToAgent` (current `index.ts`): the callback payload
carries `deliveryId` and the audit row written through `db.insertDelivery`
carries the same variable, so both ids are recorded.  `time` is the clock at
which the attempt fires, `attempt` its 1-based number. -/
structure DeliveryAttempt where
  payloadDeliveryId : String
  auditDeliveryId : String
  eventId : String
  sessionKey : String
  targetAgentId : String
  status : DeliveryStatus
  attempt : Nat
  time : Int
deriving DecidableEq, Repr, Inhabited

/-- Function `deliverToAgent` of the current `index.ts`, as the list of attempts it
performs.  `ok n` tells whether the HTTP POST of attempt `n` lands with a 2xx
(the outcome oracle for the recipient's callback).  On failure with
`attempt ≥ maxRetries` the attempt is terminal (status failed); otherwise a
retry is scheduled `baseDelayMs · 2^(attempt−1)` later with `attempt + 1` and
the same `deliveryId`. -/
def deliverToAgent (maxRetries : Nat) (baseDelayMs : Int) (ok : Nat → Bool)
    (agent : AgentRegistration) (evt : EventEnvelope) (deliveryId : String)
    (t : Int) (attempt : Nat) : List DeliveryAttempt :=
  if ok attempt then
    [⟨deliveryId, deliveryId, evt.eventId, evt.sessionKey, agent.agentId,
      DeliveryStatus.success, attempt, t⟩]
  else if _h : maxRetries ≤ attempt then
    [⟨deliveryId, deliveryId, evt.eventId, evt.sessionKey, agent.agentId,
      DeliveryStatus.failed, attempt, t⟩]
  else
    ⟨deliveryId, deliveryId, evt.eventId, evt.sessionKey, agent.agentId,
      DeliveryStatus.retry, attempt, t⟩ ::
      deliverToAgent maxRetries baseDelayMs ok agent evt deliveryId
        (t + baseDelayMs * 2 ^ (attempt - 1)) (attempt + 1)
termination_by maxRetries - attempt
decreasing_by omega

/-- The recipients `fanOutEvent` actually delivers to: the approved recipients
of the session minus the publishing agent itself (exclusion rule). -/
def fanOutRecipients (w : WhitelistState) (evt : EventEnvelope) : List AgentRegistration :=
  (getApprovedRecipients w evt.sessionKey).filter
    (fun agent =>
      !(decide (evt.originActorType = ActorType.agent)
          && decide (evt.originActorId = agent.agentId)))

/-- The deliveries started by `fanOutEvent`, one per remaining recipient, each
with the next fresh id from the `randomUUID` supply `uuids` (the i-th call of
the loop obtains `uuids (i0 + position)`). -/
def fanOutAux (maxRetries : Nat) (baseDelayMs : Int) (okFor : String → Nat → Bool)
    (uuids : Nat → String) (evt : EventEnvelope) (t : Int) :
    List AgentRegistration → Nat → List (List DeliveryAttempt)
  | [], _ => []
  | agent :: rest, i =>
    deliverToAgent maxRetries baseDelayMs (okFor agent.agentId) agent evt (uuids i) t 1 ::
      fanOutAux maxRetries baseDelayMs okFor uuids evt t rest (i + 1)

/-- Function `fanOutEvent` of the current `index.ts`. -/
def fanOutEvent (maxRetries : Nat) (baseDelayMs : Int) (okFor : String → Nat → Bool)
    (uuids : Nat → String) (w : WhitelistState) (evt : EventEnvelope) (t : Int) :
    List (List DeliveryAttempt) :=
  fanOutAux maxRetries baseDelayMs okFor uuids evt t (fanOutRecipients w evt) 0

/-- The three policy actions the ingest pipeline derives from a decision. -/
inductive PolicyAction
  | stop
  | warn
  | normal
deriving DecidableEq, Repr

/-- The action computed in the publish handler of the current `index.ts`:
`d.isErrorLoop && d.confidence >= 0.95 ? stop : d.isErrorLoop && d.confidence > 0.7 ? warn : normal`. -/
def policyAction (d : RouterDecision) : PolicyAction :=
  if d.isErrorLoop = true ∧ mkRat 95 100 ≤ d.confidence then PolicyAction.stop
  else if d.isErrorLoop = true ∧ mkRat 7 10 < d.confidence then PolicyAction.warn
  else PolicyAction.normal

/-- Model of `Number.prototype.toFixed(2)` for the rationals the router formats:
the integer `n` minimising `|n/100 − q|` (larger `n` on ties, per the
ECMAScript algorithm), printed with exactly two digits after the point.
`n = ⌊100q + 1/2⌋` is computed on the numerator and denominator directly,
as `(200·num + den) fdiv (2·den)` (`Int.fdiv` rounds toward −∞). -/
def toFixed2 (q : ℚ) : String :=
  let n := (200 * q.num + q.den).fdiv (2 * q.den)
  if n < 0 then
    "-" ++ toString ((-n).toNat / 100) ++ "." ++
      (if (-n).toNat % 100 < 10 then "0" else "") ++ toString ((-n).toNat % 100)
  else
    toString (n.toNat / 100) ++ "." ++
      (if n.toNat % 100 < 10 then "0" else "") ++ toString (n.toNat % 100)

/-- The text of the outbound event on the warn path (current `index.ts`). -/
def warnText (text : String) (confidence : ℚ) : String :=
  text ++ "\n\n[LOOP_GUARD_NOTE] Possible error loop detected (confidence=" ++
    toFixed2 confidence ++ "). Please evaluate and stop if erroneous."

/-- The response of `POST /mcp/events/publish` (after validation). -/
inductive PublishResponse
  | forbidden (reason : String)
  | duplicateBlocked (reason : String)
  | stopped (decision : RouterDecision)
  | accepted (delayed : Bool) (delayMs : Int) (decision : RouterDecision)
deriving DecidableEq, Repr

/-- What one publish request does: its HTTP response, the whitelist and store
after the request (including the deferred run closure), the event handed to
the run closure (none when rejected), and the events handed to `fanOutEvent`
(empty when the append found a duplicate eventId). -/
structure PublishResult where
  response : PublishResponse
  whitelist : WhitelistState
  store : Store
  outboundEvent : Option EventEnvelope
  fanout : List EventEnvelope
deriving Repr

/-- The classify-append-fanout tail of the publish handler: evaluate the
guard, derive the action; on stop respond without touching the store; on warn
append the loop-guard note to the text; run the closure that appends and, when
the append is accepted, fans out. -/
def publishClassify (guard : Store → Int → EventEnvelope → Int × RouterDecision)
    (w : WhitelistState) (st : Store) (now : Int) (evt : EventEnvelope) : PublishResult :=
  let delayMs := (guard st now evt).1
  let decision := (guard st now evt).2
  match policyAction decision with
  | PolicyAction.stop => ⟨PublishResponse.stopped decision, w, st, none, []⟩
  | a =>
    let outbound :=
      if a = PolicyAction.warn then { evt with text := warnText evt.text decision.confidence }
      else evt
    let ar := st.append outbound
    ⟨PublishResponse.accepted (decide (0 < delayMs)) delayMs decision, w, ar.2, some outbound,
      if ar.1 then [outbound] else []⟩

/-- The publish handler of the current `index.ts` for a validated envelope
(eventId and createdAt already assigned): authorization check, self-echo
dedupe on a truthy `emittedEventId` (inserted into the seen set before the
loop guard runs), then `publishClassify`.  The loop guard is the injected
`guard` dependency. -/
def publishEvent (guard : Store → Int → EventEnvelope → Int × RouterDecision)
    (w : WhitelistState) (st : Store) (now : Int) (evt : EventEnvelope) : PublishResult :=
  if evt.originActorType = ActorType.agent ∧
      canAgentAccessSession w evt.originActorId evt.sessionKey = false then
    ⟨PublishResponse.forbidden "agent not approved for this session", w, st, none, []⟩
  else
    match evt.emittedEventId with
    | some id =>
      if id = "" then publishClassify guard w st now evt
      else if id ∈ w.seenEmittedEventIds then
        ⟨PublishResponse.duplicateBlocked "self-echo duplicate emittedEventId blocked",
          w, st, none, []⟩
      else
        publishClassify guard { w with seenEmittedEventIds := id :: w.seenEmittedEventIds }
          st now evt
    | none => publishClassify guard w st now evt

/-- A concrete envelope used to instantiate the theorems below. -/
def testEvent (id txt : String) (ct : Int) : EventEnvelope :=
  ⟨id, "trace-1", "telegram:-100:topic-98", "telegram", "-100", "98", "5001",
    ActorType.human, "user-1", txt, 0, [], ct, none, none⟩

/-- A store holding three identically-worded events on trace-1 (fixture). -/
def c2Store : Store :=
  (((Store.emptyStore.append (testEvent "e1" "same repeated output" 100)).2.append
      (testEvent "e2" "same repeated output" 100)).2.append
    (testEvent "e3" "same repeated output" 100)).2

/-- A guard stub returning a fixed decision (fixture for the pipeline claims). -/
def c1Guard : Store → Int → EventEnvelope → Int × RouterDecision :=
  fun _ _ _ => (0, ⟨true, "test loop", mkRat 8 10⟩)

/-- A guard stub returning a fixed hard-stop decision (fixture). -/
def c9Guard : Store → Int → EventEnvelope → Int × RouterDecision :=
  fun _ _ _ => (0, ⟨true, "burst", mkRat 95 100⟩)

/-- An envelope carrying a concrete emittedEventId (fixture). -/
def c9Event : EventEnvelope :=
  { testEvent "e-c9" "hello" 0 with emittedEventId := some "emit-1" }

/-- A second envelope reusing the emittedEventId of `c9Event` (fixture). -/
def c9Event2 : EventEnvelope :=
  { testEvent "e-c9b" "hello again" 5 with emittedEventId := some "emit-1" }

/-- A concrete approved registration (fixture for the delivery claims). -/
def c6Agent : AgentRegistration :=
  ⟨"agent-beta", none, "https://b.example/hook", none, [], 0, RegistrationStatus.approved⟩

/-- The single successful attempt produced by an immediately-succeeding
delivery (fixture). -/
def c6Rec : DeliveryAttempt :=
  ⟨"d-1", "d-1", "e-c6", "telegram:-100:topic-98", "agent-beta", DeliveryStatus.success, 1, 0⟩

/-- An approved registration for agent-alpha (fixture). -/
def c10Reg : AgentRegistration :=
  ⟨"agent-alpha", none, "https://a.example/hook", none, ["s1"], 0, RegistrationStatus.approved⟩

/-- A whitelist in which agent-alpha is approved with a grant for s1 (fixture). -/
def c10W : WhitelistState :=
  ⟨["agent-alpha"], [("agent-alpha", ["s1"])], [("agent-alpha", c10Reg)], []⟩

/-- A re-registration payload for agent-alpha (fixture). -/
def c10P : RegisterPayload := ⟨"agent-alpha", none, "https://a.example/hook", none, []⟩

/-- No two adjacent spaces anywhere in the character list. -/
def noDouble : List Char → Bool
  | c1 :: c2 :: rest => !(decide (c1 = ' ') && decide (c2 = ' ')) && noDouble (c2 :: rest)
  | _ => true

/-- The last character of a list, if any. -/
def lastChar? : List Char → Option Char
  | [] => none
  | [c] => some c
  | _ :: c :: cs => lastChar? (c :: cs)

section Lemmas

lemma assocGet_nil {α : Type} (k : String) : assocGet ([] : List (String × α)) k = none := rfl

lemma assocGet_cons {α : Type} (p : String × α) (m : List (String × α)) (k : String) :
    assocGet (p :: m) k = if p.1 = k then some p.2 else assocGet m k := by
  unfold assocGet
  by_cases h : p.1 = k
  · rw [List.find?_cons_of_pos _ (by simpa using h), if_pos h]
    rfl
  · rw [List.find?_cons_of_neg _ (by simpa using h), if_neg h]

lemma assocGet_assocSet_self {α : Type} (m : List (String × α)) (k : String) (v : α) :
    assocGet (assocSet m k v) k = some v := by
  induction m with
  | nil => simp [assocSet, assocGet_cons]
  | cons p rest ih =>
    by_cases hp : p.1 = k
    · simp [assocSet, hp, assocGet_cons]
    · simp [assocSet, hp, assocGet_cons, ih]

lemma assocGet_assocSet_ne {α : Type} (m : List (String × α)) (k k' : String) (v : α)
    (h : k' ≠ k) : assocGet (assocSet m k v) k' = assocGet m k' := by
  induction m with
  | nil => simp [assocSet, assocGet_cons, assocGet_nil, if_neg (fun hk : k = k' => h hk.symm)]
  | cons p rest ih =>
    by_cases hp : p.1 = k
    · rw [show assocSet (p :: rest) k v = (k, v) :: rest by rw [assocSet, if_pos hp],
        assocGet_cons, assocGet_cons]
      rw [if_neg (fun hk : k = k' => h hk.symm),
        if_neg (fun hk : p.1 = k' => h (hp.symm.trans hk).symm)]
    · rw [show assocSet (p :: rest) k v = p :: assocSet rest k v by rw [assocSet, if_neg hp],
        assocGet_cons, assocGet_cons, ih]

lemma Store.append_seen (st : Store) (evt : EventEnvelope)
    (h : evt.eventId ∈ st.seenEventIds) : st.append evt = (false, st) := by
  simp [Store.append, h]

lemma Store.append_fresh (st : Store) (evt : EventEnvelope)
    (h : evt.eventId ∉ st.seenEventIds) :
    st.append evt =
      (true,
        ⟨assocSet st.eventsBySession evt.sessionKey (st.list evt.sessionKey ++ [evt]),
          evt.eventId :: st.seenEventIds⟩) := by
  simp [Store.append, h]

lemma assocGet_mem {α : Type} (m : List (String × α)) (k : String) (v : α)
    (h : assocGet m k = some v) : (k, v) ∈ m := by
  induction m with
  | nil => simp [assocGet] at h
  | cons p rest ih =>
    rw [assocGet_cons] at h
    by_cases hk : p.1 = k
    · rw [if_pos hk] at h
      rcases p with ⟨pk, pv⟩
      simp only [Option.some_inj] at h
      simp only at hk
      rw [List.mem_cons]
      left
      rw [hk, h]
    · rw [if_neg hk] at h
      exact List.mem_cons_of_mem _ (ih h)

end Lemmas

/-- C5: `Store.append` returns false exactly when the eventId is already in the
global seen set; a refused append leaves the store unchanged; an accepted
append puts the event at the end of its session list, leaves other sessions
unchanged and records the id; and after a successful append, any append of an
event carrying the same eventId is refused and changes nothing, so at most one
of two same-id events ever appears in a session list. -/
theorem store_append_idempotent (st : Store) (evt : EventEnvelope) :
    ((st.append evt).1 = false ↔ evt.eventId ∈ st.seenEventIds) ∧
    ((st.append evt).1 = false → (st.append evt).2 = st) ∧
    ((st.append evt).1 = true →
      (st.append evt).2.list evt.sessionKey = st.list evt.sessionKey ++ [evt] ∧
      (∀ k, k ≠ evt.sessionKey → (st.append evt).2.list k = st.list k) ∧
      evt.eventId ∈ (st.append evt).2.seenEventIds) ∧
    (∀ e2 : EventEnvelope, e2.eventId = evt.eventId → (st.append evt).1 = true →
      ((st.append evt).2.append e2).1 = false ∧
      ((st.append evt).2.append e2).2 = (st.append evt).2) := by
  by_cases h : evt.eventId ∈ st.seenEventIds
  · rw [Store.append_seen st evt h]
    refine ⟨by simp [h], by simp, by simp, ?_⟩
    intro e2 _ htrue
    simp at htrue
  · rw [Store.append_fresh st evt h]
    refine ⟨by simp [h], by simp, ?_, ?_⟩
    · intro _
      refine ⟨?_, ?_, ?_⟩
      · simp only [Store.list]
        rw [assocGet_assocSet_self]
        rfl
      · intro k hk
        simp only [Store.list]
        rw [assocGet_assocSet_ne _ _ _ _ hk]
      · simp
    · intro e2 he2 _
      rw [Store.append_seen _ e2 (by rw [he2]; exact List.mem_cons_self _ _)]
      exact ⟨rfl, rfl⟩

/-- C5 witness: a fresh append of a concrete event is accepted, a second
append of a same-id event is refused and leaves the store unchanged. -/
theorem store_append_idempotent_witness :
    ((Store.emptyStore.append (testEvent "e1" "hello" 0)).2.append (testEvent "e1" "bye" 1)).1
        = false ∧
    ((Store.emptyStore.append (testEvent "e1" "hello" 0)).2.append (testEvent "e1" "bye" 1)).2
        = (Store.emptyStore.append (testEvent "e1" "hello" 0)).2 :=
  (store_append_idempotent Store.emptyStore (testEvent "e1" "hello" 0)).2.2.2
    (testEvent "e1" "bye" 1) (by decide) (by decide)

/-- C2: below the rate cap, when the last 4 events of the candidate's
one-minute trace window number at least 3 and at least 2 of them have Jaccard
similarity ≥ 0.95 to the candidate's text, the guard returns the configured
default delay and the fixed repetition decision with confidence 0.8. -/
theorem loopGuard_repetition (cfg : LoopGuardConfig) (st : Store) (now : Int)
    (cand : EventEnvelope)
    (h1 : (st.recentByTrace now cand.traceId 60000).length < cfg.maxPerMinute)
    (h2 : 3 ≤ ((st.recentByTrace now cand.traceId 60000).drop
        ((st.recentByTrace now cand.traceId 60000).length - 4)).length)
    (h3 : 2 ≤ (((st.recentByTrace now cand.traceId 60000).drop
        ((st.recentByTrace now cand.traceId 60000).length - 4)).filter
        (fun e => decide (mkRat 95 100 ≤ jaccard e.text cand.text))).length) :
    evaluateGuard cfg st now cand =
      (cfg.delayDefaultMs,
        { isErrorLoop := true,
          reason := "near-identical repeated outputs detected; delayed for safety",
          confidence := mkRat 8 10 }) := by
  unfold evaluateGuard
  rw [if_neg (by omega), if_pos h2, if_pos h3]

/-- C2 witness: three prior copies of the same text on the trace make the
fourth publish return delay 2000 and the 0.8-confidence repetition decision
under the default configuration. -/
theorem loopGuard_repetition_witness :
    evaluateGuard defaultLoopGuardConfig c2Store 100 (testEvent "e4" "same repeated output" 100) =
      (2000,
        { isErrorLoop := true,
          reason := "near-identical repeated outputs detected; delayed for safety",
          confidence := mkRat 8 10 }) :=
  loopGuard_repetition defaultLoopGuardConfig c2Store 100
    (testEvent "e4" "same repeated output" 100) (by decide) (by decide) (by decide)

/-- C3: with at least maxPerMinute events already in the candidate's
one-minute trace window, the guard returns the configured burst delay and the
rate-cap decision with confidence 0.95 and the "max N loop events per minute
exceeded; delaying" reason — regardless of any repetition, because the rate
cap is checked first. -/
theorem loopGuard_rateCap (cfg : LoopGuardConfig) (st : Store) (now : Int)
    (cand : EventEnvelope)
    (h1 : cfg.maxPerMinute ≤ (st.recentByTrace now cand.traceId 60000).length) :
    evaluateGuard cfg st now cand =
      (cfg.delayBurstMs,
        { isErrorLoop := true,
          reason := "max " ++ toString cfg.maxPerMinute ++
            " loop events per minute exceeded; delaying",
          confidence := mkRat 95 100 }) := by
  unfold evaluateGuard
  rw [if_pos h1]

section PublishLemmas

lemma publishClassify_stop (g : Store → Int → EventEnvelope → Int × RouterDecision)
    (w : WhitelistState) (st : Store) (now : Int) (evt : EventEnvelope)
    (h : policyAction (g st now evt).2 = PolicyAction.stop) :
    publishClassify g w st now evt =
      ⟨PublishResponse.stopped (g st now evt).2, w, st, none, []⟩ := by
  simp only [publishClassify, h]

lemma publishClassify_warn (g : Store → Int → EventEnvelope → Int × RouterDecision)
    (w : WhitelistState) (st : Store) (now : Int) (evt : EventEnvelope)
    (h : policyAction (g st now evt).2 = PolicyAction.warn) :
    publishClassify g w st now evt =
      ⟨PublishResponse.accepted (decide (0 < (g st now evt).1)) (g st now evt).1 (g st now evt).2,
        w,
        (st.append { evt with text := warnText evt.text (g st now evt).2.confidence }).2,
        some { evt with text := warnText evt.text (g st now evt).2.confidence },
        if (st.append { evt with text := warnText evt.text (g st now evt).2.confidence }).1 then
          [{ evt with text := warnText evt.text (g st now evt).2.confidence }]
        else []⟩ := by
  simp [publishClassify, h]

lemma publishClassify_normal (g : Store → Int → EventEnvelope → Int × RouterDecision)
    (w : WhitelistState) (st : Store) (now : Int) (evt : EventEnvelope)
    (h : policyAction (g st now evt).2 = PolicyAction.normal) :
    publishClassify g w st now evt =
      ⟨PublishResponse.accepted (decide (0 < (g st now evt).1)) (g st now evt).1 (g st now evt).2,
        w, (st.append evt).2, some evt,
        if (st.append evt).1 then [evt] else []⟩ := by
  simp [publishClassify, h]

lemma publishClassify_whitelist (g : Store → Int → EventEnvelope → Int × RouterDecision)
    (w : WhitelistState) (st : Store) (now : Int) (evt : EventEnvelope) :
    (publishClassify g w st now evt).whitelist = w := by
  rcases h : policyAction (g st now evt).2
  · rw [publishClassify_stop g w st now evt h]
  · rw [publishClassify_warn g w st now evt h]
  · rw [publishClassify_normal g w st now evt h]

/-- A publish that passes authorization and the self-echo check reaches the
classification tail, with the seen-set possibly extended by its own id. -/
lemma publishEvent_passes (g : Store → Int → EventEnvelope → Int × RouterDecision)
    (w : WhitelistState) (st : Store) (now : Int) (evt : EventEnvelope)
    (hauth : ¬(evt.originActorType = ActorType.agent ∧
      canAgentAccessSession w evt.originActorId evt.sessionKey = false))
    (hecho : ∀ id, evt.emittedEventId = some id → id = "" ∨ id ∉ w.seenEmittedEventIds) :
    publishEvent g w st now evt = publishClassify g w st now evt ∨
    (∃ id, evt.emittedEventId = some id ∧ id ≠ "" ∧ id ∉ w.seenEmittedEventIds ∧
      publishEvent g w st now evt =
        publishClassify g { w with seenEmittedEventIds := id :: w.seenEmittedEventIds }
          st now evt) := by
  unfold publishEvent
  rw [if_neg hauth]
  cases hid : evt.emittedEventId with
  | none => left; rfl
  | some id =>
    dsimp only
    rcases hecho id hid with h | h
    · left
      rw [if_pos h]
    · by_cases hblank : id = ""
      · left
        rw [if_pos hblank]
      · right
        exact ⟨id, rfl, hblank, h, by rw [if_neg hblank, if_neg h]⟩

lemma publishEvent_warn_effects (guard : Store → Int → EventEnvelope → Int × RouterDecision)
    (w : WhitelistState) (st : Store) (now : Int) (evt : EventEnvelope)
    (hauth : ¬(evt.originActorType = ActorType.agent ∧
      canAgentAccessSession w evt.originActorId evt.sessionKey = false))
    (hecho : ∀ id, evt.emittedEventId = some id → id = "" ∨ id ∉ w.seenEmittedEventIds)
    (hfresh : evt.eventId ∉ st.seenEventIds)
    (hwarn : policyAction (guard st now evt).2 = PolicyAction.warn) :
    (publishEvent guard w st now evt).outboundEvent =
      some { evt with text := warnText evt.text (guard st now evt).2.confidence } ∧
    (publishEvent guard w st now evt).fanout =
      [{ evt with text := warnText evt.text (guard st now evt).2.confidence }] ∧
    (publishEvent guard w st now evt).response =
      PublishResponse.accepted (decide (0 < (guard st now evt).1)) (guard st now evt).1
        (guard st now evt).2 := by
  have hp := publishEvent_passes guard w st now evt hauth hecho
  have hfr := Store.append_fresh st
    { evt with text := warnText evt.text (guard st now evt).2.confidence } hfresh
  rcases hp with heq | ⟨id, -, -, -, heq⟩ <;>
      rw [heq, publishClassify_warn _ _ _ _ _ hwarn] <;>
    exact ⟨rfl, by rw [hfr]; rfl, rfl⟩

end PublishLemmas

/-- C3 witness: with maxPerMinute = 3 and three prior trace events, the next
publish gets the burst delay 7000 and the 0.95-confidence rate-cap decision. -/
theorem loopGuard_rateCap_witness :
    evaluateGuard ⟨3, 2000, 7000⟩ c2Store 100 (testEvent "e4" "hello" 100) =
      (7000,
        { isErrorLoop := true,
          reason := "max 3 loop events per minute exceeded; delaying",
          confidence := mkRat 95 100 }) :=
  loopGuard_rateCap ⟨3, 2000, 7000⟩ c2Store 100 (testEvent "e4" "hello" 100) (by decide)

/-- C1: for a publish that passes validation, authorization and the
emittedEventId check, the pipeline maps the guard decision d to its policy
action exactly as claimed — stop iff `d.isErrorLoop ∧ 0.95 ≤ d.confidence`
(respond stopped, no append, no fan-out), warn iff
`d.isErrorLoop ∧ 0.7 < d.confidence < 0.95` (suffix the text, append, fan
out), normal otherwise — including the concrete confidence table. -/
theorem publish_policy_mapping
    (guard : Store → Int → EventEnvelope → Int × RouterDecision)
    (w : WhitelistState) (st : Store) (now : Int) (evt : EventEnvelope)
    (hauth : ¬(evt.originActorType = ActorType.agent ∧
      canAgentAccessSession w evt.originActorId evt.sessionKey = false))
    (hecho : ∀ id, evt.emittedEventId = some id → id = "" ∨ id ∉ w.seenEmittedEventIds)
    (hfresh : evt.eventId ∉ st.seenEventIds) :
    (∀ d : RouterDecision,
      (policyAction d = PolicyAction.stop ↔
        d.isErrorLoop = true ∧ mkRat 95 100 ≤ d.confidence) ∧
      (policyAction d = PolicyAction.warn ↔
        d.isErrorLoop = true ∧ mkRat 7 10 < d.confidence ∧ d.confidence < mkRat 95 100) ∧
      (policyAction d = PolicyAction.normal ↔
        ¬(d.isErrorLoop = true ∧ mkRat 7 10 < d.confidence))) ∧
    (policyAction (guard st now evt).2 = PolicyAction.stop →
      (publishEvent guard w st now evt).response = PublishResponse.stopped (guard st now evt).2 ∧
      (publishEvent guard w st now evt).store = st ∧
      (publishEvent guard w st now evt).outboundEvent = none ∧
      (publishEvent guard w st now evt).fanout = []) ∧
    (policyAction (guard st now evt).2 = PolicyAction.warn →
      (publishEvent guard w st now evt).outboundEvent =
        some { evt with text := warnText evt.text (guard st now evt).2.confidence } ∧
      (publishEvent guard w st now evt).fanout =
        [{ evt with text := warnText evt.text (guard st now evt).2.confidence }] ∧
      (publishEvent guard w st now evt).response =
        PublishResponse.accepted (decide (0 < (guard st now evt).1)) (guard st now evt).1
          (guard st now evt).2) ∧
    (policyAction (guard st now evt).2 = PolicyAction.normal →
      (publishEvent guard w st now evt).outboundEvent = some evt ∧
      (publishEvent guard w st now evt).fanout = [evt] ∧
      (publishEvent guard w st now evt).response =
        PublishResponse.accepted (decide (0 < (guard st now evt).1)) (guard st now evt).1
          (guard st now evt).2) ∧
    (∀ s : String,
      policyAction ⟨true, s, mkRat 95 100⟩ = PolicyAction.stop ∧
      policyAction ⟨true, s, mkRat 99 100⟩ = PolicyAction.stop ∧
      policyAction ⟨true, s, mkRat 71 100⟩ = PolicyAction.warn ∧
      policyAction ⟨true, s, mkRat 94 100⟩ = PolicyAction.warn ∧
      policyAction ⟨true, s, mkRat 7 10⟩ = PolicyAction.normal) ∧
    (∀ (s : String) (c : ℚ), policyAction ⟨false, s, c⟩ = PolicyAction.normal) := by
  have hiff : ∀ d : RouterDecision,
      (policyAction d = PolicyAction.stop ↔
        d.isErrorLoop = true ∧ mkRat 95 100 ≤ d.confidence) ∧
      (policyAction d = PolicyAction.warn ↔
        d.isErrorLoop = true ∧ mkRat 7 10 < d.confidence ∧ d.confidence < mkRat 95 100) ∧
      (policyAction d = PolicyAction.normal ↔
        ¬(d.isErrorLoop = true ∧ mkRat 7 10 < d.confidence)) := by
    intro d
    have h710 : (mkRat 7 10 : ℚ) < mkRat 95 100 := by decide
    by_cases hA : d.isErrorLoop = true ∧ mkRat 95 100 ≤ d.confidence
    · refine ⟨by simp [policyAction, hA], ?_, ?_⟩
      · simp only [policyAction, if_pos hA]
        constructor
        · intro h
          exact absurd h (by decide)
        · rintro ⟨-, -, hlt⟩
          exact absurd hA.2 (not_le.mpr hlt)
      · simp only [policyAction, if_pos hA]
        constructor
        · intro h
          exact absurd h (by decide)
        · intro hn
          exact absurd ⟨hA.1, lt_of_lt_of_le h710 hA.2⟩ hn
    · by_cases hB : d.isErrorLoop = true ∧ mkRat 7 10 < d.confidence
      · have hlt : d.confidence < mkRat 95 100 := by
          by_contra hge
          exact hA ⟨hB.1, le_of_not_lt hge⟩
        refine ⟨?_, ?_, ?_⟩
        · simp only [policyAction, if_neg hA, if_pos hB]
          constructor
          · intro h
            exact absurd h (by decide)
          · intro hc
            exact absurd hc.2 (not_le.mpr hlt)
        · simp only [policyAction, if_neg hA, if_pos hB]
          constructor
          · intro _
            exact ⟨hB.1, hB.2, hlt⟩
          · intro _
            trivial
        · simp only [policyAction, if_neg hA, if_pos hB]
          constructor
          · intro h
            exact absurd h (by decide)
          · intro hn
            exact absurd hB hn
      · refine ⟨?_, ?_, ?_⟩
        · simp only [policyAction, if_neg hA, if_neg hB]
          constructor
          · intro h
            exact absurd h (by decide)
          · rintro ⟨hl, hge⟩
            exact absurd ⟨hl, hge⟩ hA
        · simp only [policyAction, if_neg hA, if_neg hB]
          constructor
          · intro h
            exact absurd h (by decide)
          · rintro ⟨hl, hgt, -⟩
            exact absurd ⟨hl, hgt⟩ hB
        · simp only [policyAction, if_neg hA, if_neg hB]
          constructor
          · intro _
            exact hB
          · intro _
            trivial
  have hp := publishEvent_passes guard w st now evt hauth hecho
  refine ⟨hiff, ?_, ?_, ?_, ?_, ?_⟩
  · intro hstop
    rcases hp with heq | ⟨id, -, -, -, heq⟩ <;>
      rw [heq, publishClassify_stop _ _ _ _ _ hstop] <;> exact ⟨rfl, rfl, rfl, rfl⟩
  · intro hwarn
    exact publishEvent_warn_effects guard w st now evt hauth hecho hfresh hwarn
  · intro hnormal
    have hfr := Store.append_fresh st evt hfresh
    rcases hp with heq | ⟨id, -, -, -, heq⟩ <;>
        rw [heq, publishClassify_normal _ _ _ _ _ hnormal] <;>
      exact ⟨rfl, by rw [hfr]; rfl, rfl⟩
  · intro s
    have e95 : (mkRat 95 100 : ℚ) ≤ mkRat 95 100 := by decide
    have e99 : (mkRat 95 100 : ℚ) ≤ mkRat 99 100 := by decide
    have w71a : (mkRat 7 10 : ℚ) < mkRat 71 100 := by decide
    have w71b : (mkRat 71 100 : ℚ) < mkRat 95 100 := by decide
    have w94a : (mkRat 7 10 : ℚ) < mkRat 94 100 := by decide
    have w94b : (mkRat 94 100 : ℚ) < mkRat 95 100 := by decide
    have n70 : ¬((mkRat 7 10 : ℚ) < mkRat 7 10) := by decide
    refine ⟨(hiff _).1.mpr ⟨rfl, e95⟩, (hiff _).1.mpr ⟨rfl, e99⟩,
      (hiff _).2.1.mpr ⟨rfl, w71a, w71b⟩, (hiff _).2.1.mpr ⟨rfl, w94a, w94b⟩,
      (hiff _).2.2.mpr ?_⟩
    rintro ⟨-, h⟩
    exact n70 h
  · intro s c
    refine (hiff _).2.2.mpr ?_
    rintro ⟨h, -⟩
    simp at h

/-- C1 witness: the policy table at concrete confidences, via the theorem at a
concrete guard, whitelist, store and event. -/
theorem publish_policy_mapping_witness :
    policyAction ⟨true, "w", mkRat 99 100⟩ = PolicyAction.stop :=
  ((publish_policy_mapping c1Guard WhitelistState.emptyWhitelist Store.emptyStore 0
    (testEvent "e-c1" "hi" 0) (by decide) (fun id h => Option.noConfusion h)
    (by decide)).2.2.2.2.1 "w").2.1

/-- C4: on the warn path, the outbound event's text is exactly the original
text, two newline characters, the literal loop-guard tag with the confidence
formatted to two decimals, and the closing sentence; every other envelope
field of the outbound event equals the original's; and that event is also the
one fanned out.  `toFixed2 (mkRat 8 10) = "0.80"` pins the two-decimal
formatting. -/
theorem publish_warn_text
    (guard : Store → Int → EventEnvelope → Int × RouterDecision)
    (w : WhitelistState) (st : Store) (now : Int) (evt : EventEnvelope)
    (hauth : ¬(evt.originActorType = ActorType.agent ∧
      canAgentAccessSession w evt.originActorId evt.sessionKey = false))
    (hecho : ∀ id, evt.emittedEventId = some id → id = "" ∨ id ∉ w.seenEmittedEventIds)
    (hfresh : evt.eventId ∉ st.seenEventIds)
    (hwarn : policyAction (guard st now evt).2 = PolicyAction.warn) :
    (publishEvent guard w st now evt).outboundEvent =
      some { evt with text :=
        (evt.text ++ "\n\n[LOOP_GUARD_NOTE] Possible error loop detected (confidence=" ++
          toFixed2 (guard st now evt).2.confidence ++
          "). Please evaluate and stop if erroneous.") } ∧
    (publishEvent guard w st now evt).fanout =
      [{ evt with text :=
        (evt.text ++ "\n\n[LOOP_GUARD_NOTE] Possible error loop detected (confidence=" ++
          toFixed2 (guard st now evt).2.confidence ++
          "). Please evaluate and stop if erroneous.") }] ∧
    (∀ out : EventEnvelope, (publishEvent guard w st now evt).outboundEvent = some out →
      out.eventId = evt.eventId ∧ out.traceId = evt.traceId ∧
      out.sessionKey = evt.sessionKey ∧ out.sourceChannel = evt.sourceChannel ∧
      out.sourceChatId = evt.sourceChatId ∧ out.sourceThreadId = evt.sourceThreadId ∧
      out.sourceMessageId = evt.sourceMessageId ∧
      out.originActorType = evt.originActorType ∧ out.originActorId = evt.originActorId ∧
      out.hopCount = evt.hopCount ∧ out.seenAgents = evt.seenAgents ∧
      out.createdAt = evt.createdAt ∧ out.emittedByAgentId = evt.emittedByAgentId ∧
      out.emittedEventId = evt.emittedEventId) ∧
    toFixed2 (mkRat 8 10) = "0.80" := by
  have hout := publishEvent_warn_effects guard w st now evt hauth hecho hfresh hwarn
  have hwt : warnText evt.text (guard st now evt).2.confidence =
      evt.text ++ "\n\n[LOOP_GUARD_NOTE] Possible error loop detected (confidence=" ++
        toFixed2 (guard st now evt).2.confidence ++
        "). Please evaluate and stop if erroneous." := by
    rw [warnText]
  refine ⟨by rw [hout.1, hwt], by rw [hout.2.1, hwt], ?_, by decide⟩
  intro out hsome
  rw [hout.1] at hsome
  cases hsome
  exact ⟨rfl, rfl, rfl, rfl, rfl, rfl, rfl, rfl, rfl, rfl, rfl, rfl, rfl, rfl⟩

/-- C4 witness: at confidence 0.8 the appended and fanned-out event carries
the exact suffixed text with "confidence=0.80". -/
theorem publish_warn_text_witness :
    (publishEvent c1Guard WhitelistState.emptyWhitelist Store.emptyStore 0
        (testEvent "e-c4" "hi" 0)).outboundEvent =
      some { testEvent "e-c4" "hi" 0 with text :=
        "hi\n\n[LOOP_GUARD_NOTE] Possible error loop detected (confidence=0.80). Please evaluate and stop if erroneous." } :=
  (publish_warn_text c1Guard WhitelistState.emptyWhitelist Store.emptyStore 0
    (testEvent "e-c4" "hi" 0) (by decide) (fun id h => Option.noConfusion h) (by decide)
    (by decide)).1

/-- C9: an authorized publish carrying a fresh (truthy) emittedEventId inserts
it into the seen set no matter what the guard decides — in particular it stays
inserted when the stop policy then rejects the publish without appending or
fanning out — so any later publish reusing that id, under any guard and any
store, receives the duplicate-blocked response. -/
theorem publish_emitted_id_consumed
    (guard : Store → Int → EventEnvelope → Int × RouterDecision)
    (w : WhitelistState) (st : Store) (now : Int) (evt : EventEnvelope) (id : String)
    (h1 : evt.emittedEventId = some id) (h2 : id ≠ "") (h3 : id ∉ w.seenEmittedEventIds)
    (hauth : ¬(evt.originActorType = ActorType.agent ∧
      canAgentAccessSession w evt.originActorId evt.sessionKey = false)) :
    id ∈ (publishEvent guard w st now evt).whitelist.seenEmittedEventIds ∧
    (policyAction (guard st now evt).2 = PolicyAction.stop →
      (publishEvent guard w st now evt).response =
        PublishResponse.stopped (guard st now evt).2 ∧
      (publishEvent guard w st now evt).store = st ∧
      (publishEvent guard w st now evt).outboundEvent = none ∧
      (publishEvent guard w st now evt).fanout = []) ∧
    (∀ (guard2 : Store → Int → EventEnvelope → Int × RouterDecision)
        (st2 : Store) (now2 : Int) (evt2 : EventEnvelope),
      evt2.emittedEventId = some id →
      ¬(evt2.originActorType = ActorType.agent ∧
        canAgentAccessSession (publishEvent guard w st now evt).whitelist
          evt2.originActorId evt2.sessionKey = false) →
      (publishEvent guard2 (publishEvent guard w st now evt).whitelist st2 now2 evt2).response =
        PublishResponse.duplicateBlocked "self-echo duplicate emittedEventId blocked") := by
  have heq : publishEvent guard w st now evt =
      publishClassify guard { w with seenEmittedEventIds := id :: w.seenEmittedEventIds }
        st now evt := by
    unfold publishEvent
    rw [if_neg hauth]
    rw [show evt.emittedEventId = some id from h1]
    dsimp only
    rw [if_neg h2, if_neg h3]
  have hwl : (publishEvent guard w st now evt).whitelist =
      { w with seenEmittedEventIds := id :: w.seenEmittedEventIds } := by
    rw [heq, publishClassify_whitelist]
  refine ⟨?_, ?_, ?_⟩
  · rw [hwl]
    exact List.mem_cons_self _ _
  · intro hstop
    rw [heq, publishClassify_stop _ _ _ _ _ hstop]
    exact ⟨rfl, rfl, rfl, rfl⟩
  · intro guard2 st2 now2 evt2 h1b hauth2
    rw [hwl] at hauth2 ⊢
    unfold publishEvent
    rw [if_neg hauth2]
    rw [show evt2.emittedEventId = some id from h1b]
    dsimp only
    rw [if_neg h2, if_pos (List.mem_cons_self _ _)]

/-- C9 witness: a publish with emittedEventId "emit-1" stopped by a
0.95-confidence decision still blocks a later publish reusing "emit-1". -/
theorem publish_emitted_id_consumed_witness :
    (publishEvent c9Guard
        (publishEvent c9Guard WhitelistState.emptyWhitelist Store.emptyStore 0 c9Event).whitelist
        Store.emptyStore 5 c9Event2).response =
      PublishResponse.duplicateBlocked "self-echo duplicate emittedEventId blocked" :=
  (publish_emitted_id_consumed c9Guard WhitelistState.emptyWhitelist Store.emptyStore 0
    c9Event "emit-1" (by decide) (by decide) (by decide) (by decide)).2.2
    c9Guard Store.emptyStore 5 c9Event2 (by decide) (by decide)

section DeliveryLemmas

lemma deliverToAgent_ok (mR : Nat) (base : Int) (ok : Nat → Bool) (agent : AgentRegistration)
    (evt : EventEnvelope) (did : String) (t : Int) (a : Nat) (h : ok a = true) :
    deliverToAgent mR base ok agent evt did t a =
      [⟨did, did, evt.eventId, evt.sessionKey, agent.agentId, DeliveryStatus.success, a, t⟩] := by
  rw [deliverToAgent, if_pos h]

lemma deliverToAgent_fail (mR : Nat) (base : Int) (ok : Nat → Bool) (agent : AgentRegistration)
    (evt : EventEnvelope) (did : String) (t : Int) (a : Nat) (h : ¬ ok a = true)
    (h2 : mR ≤ a) :
    deliverToAgent mR base ok agent evt did t a =
      [⟨did, did, evt.eventId, evt.sessionKey, agent.agentId, DeliveryStatus.failed, a, t⟩] := by
  rw [deliverToAgent, if_neg h, dif_pos h2]

lemma deliverToAgent_retry (mR : Nat) (base : Int) (ok : Nat → Bool) (agent : AgentRegistration)
    (evt : EventEnvelope) (did : String) (t : Int) (a : Nat) (h : ¬ ok a = true)
    (h2 : ¬ mR ≤ a) :
    deliverToAgent mR base ok agent evt did t a =
      ⟨did, did, evt.eventId, evt.sessionKey, agent.agentId, DeliveryStatus.retry, a, t⟩ ::
        deliverToAgent mR base ok agent evt did (t + base * 2 ^ (a - 1)) (a + 1) := by
  rw [deliverToAgent, if_neg h, dif_neg h2]

lemma deliverToAgent_deliveryId (mR : Nat) (base : Int) (ok : Nat → Bool)
    (agent : AgentRegistration) (evt : EventEnvelope) (did : String) (t : Int) (a : Nat) :
    ∀ r ∈ deliverToAgent mR base ok agent evt did t a,
      r.payloadDeliveryId = did ∧ r.auditDeliveryId = did := by
  induction t, a using deliverToAgent.induct mR base ok agent evt did with
  | case1 t a h =>
    rw [deliverToAgent_ok mR base ok agent evt did t a h]
    intro r hr
    rw [List.mem_singleton] at hr
    subst hr
    exact ⟨rfl, rfl⟩
  | case2 t a h h2 =>
    rw [deliverToAgent_fail mR base ok agent evt did t a h h2]
    intro r hr
    rw [List.mem_singleton] at hr
    subst hr
    exact ⟨rfl, rfl⟩
  | case3 t a h h2 ih =>
    rw [deliverToAgent_retry mR base ok agent evt did t a h h2]
    intro r hr
    rcases List.mem_cons.mp hr with hr | hr
    · subst hr
      exact ⟨rfl, rfl⟩
    · exact ih r hr

lemma deliverToAgent_schedule (mR : Nat) (base : Int) (ok : Nat → Bool)
    (agent : AgentRegistration) (evt : EventEnvelope) (did : String) (t : Int) (a : Nat) :
    ∀ rs, rs = deliverToAgent mR base ok agent evt did t a →
      rs.map DeliveryAttempt.attempt = List.range' a rs.length ∧
      1 ≤ rs.length ∧
      (a ≤ mR → rs.length ≤ mR + 1 - a) ∧
      (1 ≤ a → ∀ (i : Nat) (h : i < rs.length),
        (rs.get ⟨i, h⟩).time = t + base * 2 ^ (a - 1) * ((2 : Int) ^ i - 1)) ∧
      (∀ (i : Nat) (h : i < rs.length), i + 1 < rs.length →
        (rs.get ⟨i, h⟩).status = DeliveryStatus.retry) ∧
      (∀ (i : Nat) (h : i < rs.length), (rs.get ⟨i, h⟩).status = DeliveryStatus.failed →
        i + 1 = rs.length ∧ mR ≤ a + i) := by
  induction t, a using deliverToAgent.induct mR base ok agent evt did with
  | case1 t a h =>
    intro rs hrs
    rw [deliverToAgent_ok mR base ok agent evt did t a h] at hrs
    subst hrs
    refine ⟨rfl, by simp, by intro _; simp; omega, ?_, ?_, ?_⟩
    · intro _ i hi
      match i, hi with
      | 0, _ => simp
    · intro i hi h2
      simp only [List.length_singleton] at hi h2
      omega
    · intro i hi hst
      match i, hi with
      | 0, _ => simp at hst
  | case2 t a h h2 =>
    intro rs hrs
    rw [deliverToAgent_fail mR base ok agent evt did t a h h2] at hrs
    subst hrs
    refine ⟨rfl, by simp, by intro _; simp; omega, ?_, ?_, ?_⟩
    · intro _ i hi
      match i, hi with
      | 0, _ => simp
    · intro i hi hcons
      simp only [List.length_singleton] at hi hcons
      omega
    · intro i hi hst
      match i, hi with
      | 0, _ => exact ⟨rfl, by omega⟩
  | case3 t a h h2 ih =>
    intro rs hrs
    rw [deliverToAgent_retry mR base ok agent evt did t a h h2] at hrs
    obtain ⟨pmap, plen, pbound, ptime, pretry, pfail⟩ :=
      ih (deliverToAgent mR base ok agent evt did (t + base * 2 ^ (a - 1)) (a + 1)) rfl
    subst hrs
    refine ⟨?_, by simp, ?_, ?_, ?_, ?_⟩
    · simp only [List.map_cons, List.length_cons, pmap]
      rfl
    · intro ha
      have := pbound (by omega)
      simp only [List.length_cons]
      omega
    · intro ha i hi
      obtain ⟨b, rfl⟩ : ∃ b, a = b + 1 := ⟨a - 1, by omega⟩
      match i, hi with
      | 0, _ => simp
      | i + 1, hi =>
        have hi2 : i < (deliverToAgent mR base ok agent evt did
            (t + base * 2 ^ (b + 1 - 1)) (b + 1 + 1)).length := by
          simp only [List.length_cons] at hi
          omega
        have := ptime (by omega) i hi2
        rw [List.get_cons_succ, this]
        simp only [Nat.add_sub_cancel]
        rw [show (2 : Int) ^ (i + 1) = 2 ^ i * 2 from pow_succ 2 i,
          show (2 : Int) ^ (b + 1) = 2 ^ b * 2 from pow_succ 2 b]
        ring
    · intro i hi hcons
      match i, hi with
      | 0, _ => rfl
      | i + 1, hi =>
        rw [List.get_cons_succ]
        simp only [List.length_cons] at hi hcons
        exact pretry i (by omega) (by omega)
    · intro i hi hst
      match i, hi with
      | 0, _ => simp at hst
      | i + 1, hi =>
        rw [List.get_cons_succ] at hst
        have hi2 : i < (deliverToAgent mR base ok agent evt did
            (t + base * 2 ^ (a - 1)) (a + 1)).length := by
          simp only [List.length_cons] at hi
          omega
        obtain ⟨hlen, hattempt⟩ := pfail i hi2 hst
        simp only [List.length_cons]
        exact ⟨by omega, by omega⟩

lemma fanOutAux_deliveryId (mR : Nat) (base : Int) (okFor : String → Nat → Bool)
    (uuids : Nat → String) (evt : EventEnvelope) (t : Int) :
    ∀ (recips : List AgentRegistration) (i j : Nat)
      (h : j < (fanOutAux mR base okFor uuids evt t recips i).length),
      ∀ r ∈ (fanOutAux mR base okFor uuids evt t recips i).get ⟨j, h⟩,
        r.payloadDeliveryId = uuids (i + j) ∧ r.auditDeliveryId = uuids (i + j) := by
  intro recips
  induction recips with
  | nil =>
    intro i j h
    simp [fanOutAux] at h
  | cons agent rest ih =>
    intro i j h r hr
    match j, h with
    | 0, _ =>
      rw [show (fanOutAux mR base okFor uuids evt t (agent :: rest) i).get ⟨0, by simp [fanOutAux]⟩ =
          deliverToAgent mR base (okFor agent.agentId) agent evt (uuids i) t 1 from rfl] at hr
      simpa using deliverToAgent_deliveryId mR base (okFor agent.agentId) agent evt (uuids i) t 1 r hr
    | j + 1, h =>
      have h2 : j < (fanOutAux mR base okFor uuids evt t rest (i + 1)).length := by
        simp only [fanOutAux, List.length_cons] at h
        omega
      have := ih (i + 1) j h2 r (by exact hr)
      rwa [show i + 1 + j = i + (j + 1) by omega] at this

end DeliveryLemmas

/-- C6: every attempt of one delivery — first try and all retries — carries
the same deliveryId both in the callback payload and in its audit record; in a
fan-out each recipient's delivery gets the id at its own position of the fresh
UUID supply, so an injective (fresh) supply gives distinct recipients distinct
deliveryIds. -/
theorem delivery_id_stable (mR : Nat) (base : Int) (ok : Nat → Bool)
    (agent : AgentRegistration) (evt : EventEnvelope) (did : String) (t : Int) (a : Nat) :
    (∀ r ∈ deliverToAgent mR base ok agent evt did t a,
      r.payloadDeliveryId = did ∧ r.auditDeliveryId = did) ∧
    (∀ (w : WhitelistState) (okFor : String → Nat → Bool) (uuids : Nat → String) (j : Nat)
      (h : j < (fanOutEvent mR base okFor uuids w evt t).length),
      ∀ r ∈ (fanOutEvent mR base okFor uuids w evt t).get ⟨j, h⟩,
        r.payloadDeliveryId = uuids j ∧ r.auditDeliveryId = uuids j) ∧
    (∀ uuids : Nat → String, Function.Injective uuids →
      ∀ j k : Nat, j ≠ k → uuids j ≠ uuids k) := by
  refine ⟨deliverToAgent_deliveryId mR base ok agent evt did t a, ?_, ?_⟩
  · intro w okFor uuids j h r hr
    have := fanOutAux_deliveryId mR base okFor uuids evt t
      (fanOutRecipients w evt) 0 j h r hr
    rwa [Nat.zero_add] at this
  · intro uuids hinj j k hjk heq
    exact hjk (hinj heq)

/-- C6 witness: the sole attempt of an immediately-successful delivery carries
the supplied deliveryId in payload and audit record. -/
theorem delivery_id_stable_witness :
    c6Rec.payloadDeliveryId = "d-1" ∧ c6Rec.auditDeliveryId = "d-1" :=
  (delivery_id_stable 3 1000 (fun _ => true) c6Agent (testEvent "e-c6" "x" 0) "d-1" 0 1).1
    c6Rec
    (by rw [deliverToAgent_ok 3 1000 (fun _ => true) c6Agent (testEvent "e-c6" "x" 0)
          "d-1" 0 1 rfl]
        exact List.mem_singleton_self _)

/-- C7: starting from attempt 1 at time t, a delivery performs at most
maxRetries attempts, numbered consecutively from 1; attempt n fires at
`t + base·(2^(n−1) − 1)` — i.e. each failed non-final attempt schedules
exactly one next attempt `base·2^(n−1)` later — every non-final attempt is a
retry, and a failed attempt is final and only happens at `n ≥ maxRetries`;
the recursion always terminates in this bounded list of attempts. -/
theorem delivery_retry_schedule (mR : Nat) (base : Int) (ok : Nat → Bool)
    (agent : AgentRegistration) (evt : EventEnvelope) (did : String) (t : Int)
    (hmr : 1 ≤ mR) :
    ∀ rs, rs = deliverToAgent mR base ok agent evt did t 1 →
      rs.map DeliveryAttempt.attempt = List.range' 1 rs.length ∧
      1 ≤ rs.length ∧ rs.length ≤ mR ∧
      (∀ (i : Nat) (h : i < rs.length),
        (rs.get ⟨i, h⟩).time = t + base * ((2 : Int) ^ i - 1)) ∧
      (∀ (i : Nat) (h : i < rs.length), i + 1 < rs.length →
        (rs.get ⟨i, h⟩).status = DeliveryStatus.retry) ∧
      (∀ (i : Nat) (h : i < rs.length), (rs.get ⟨i, h⟩).status = DeliveryStatus.failed →
        i + 1 = rs.length ∧ mR ≤ i + 1) ∧
      (∀ (i : Nat) (h : i < rs.length) (h2 : i + 1 < rs.length),
        (rs.get ⟨i + 1, h2⟩).time = (rs.get ⟨i, h⟩).time + base * 2 ^ i) := by
  intro rs hrs
  obtain ⟨pmap, plen, pbound, ptime, pretry, pfail⟩ :=
    deliverToAgent_schedule mR base ok agent evt did t 1 rs hrs
  have ptime1 : ∀ (i : Nat) (h : i < rs.length),
      (rs.get ⟨i, h⟩).time = t + base * ((2 : Int) ^ i - 1) := by
    intro i h
    have := ptime (le_refl 1) i h
    simpa using this
  refine ⟨pmap, plen, by have := pbound hmr; omega, ptime1, pretry, ?_, ?_⟩
  · intro i h hst
    obtain ⟨h1, h2⟩ := pfail i h hst
    exact ⟨h1, by omega⟩
  · intro i h h2
    rw [ptime1 i h, ptime1 (i + 1) h2]
    rw [show (2 : Int) ^ (i + 1) = 2 ^ i * 2 from pow_succ 2 i]
    ring

/-- C7 witness: with maxRetries 3 and a callback succeeding only on the third
try, the delivery performs at most 3 attempts. -/
theorem delivery_retry_schedule_witness :
    (deliverToAgent 3 1000 (fun n => decide (n = 3)) c6Agent (testEvent "e-c7" "x" 0)
        "d-7" 0 1).length ≤ 3 :=
  (delivery_retry_schedule 3 1000 (fun n => decide (n = 3)) c6Agent (testEvent "e-c7" "x" 0)
    "d-7" 0 (by decide)
    (deliverToAgent 3 1000 (fun n => decide (n = 3)) c6Agent (testEvent "e-c7" "x" 0) "d-7" 0 1)
    rfl).2.2.1

lemma assocSet_mem {α : Type} (m : List (String × α)) (k : String) (v : α) :
    ∀ q ∈ assocSet m k v, q = (k, v) ∨ q ∈ m := by
  induction m with
  | nil =>
    intro q hq
    rw [assocSet] at hq
    left
    simpa using hq
  | cons p rest ih =>
    intro q hq
    rw [assocSet] at hq
    by_cases hp : p.1 = k
    · rw [if_pos hp] at hq
      rcases List.mem_cons.mp hq with hq | hq
      · exact Or.inl hq
      · exact Or.inr (List.mem_cons_of_mem _ hq)
    · rw [if_neg hp] at hq
      rcases List.mem_cons.mp hq with hq | hq
      · exact Or.inr (hq ▸ List.mem_cons_self _ _)
      · rcases ih q hq with hq | hq
        · exact Or.inl hq
        · exact Or.inr (List.mem_cons_of_mem _ hq)

/-- C10: `canAgentAccessSession` depends only on the approved set and the
grant map, never on registration status; registering overwrites the
registration with a fresh pending one while leaving the approved set and the
grant map untouched; hence a previously-approved agent still passes the
access check after re-registering (it can publish and pull), while
`getApprovedRecipients` excludes it because its stored status is pending —
so register breaks the "approved-set membership iff registration status
approved" invariant. -/
theorem register_keeps_grants_breaks_invariant :
    (∀ (w w' : WhitelistState), w.approvedAgents = w'.approvedAgents →
      w.sessionsByAgent = w'.sessionsByAgent →
      ∀ (aid sk : String), canAgentAccessSession w aid sk = canAgentAccessSession w' aid sk) ∧
    (∀ (w : WhitelistState) (p : RegisterPayload) (now : Int),
      (registerAgent w p now).approvedAgents = w.approvedAgents ∧
      (registerAgent w p now).sessionsByAgent = w.sessionsByAgent ∧
      assocGet (registerAgent w p now).registrations p.agentId =
        some ⟨p.agentId, p.displayName, p.callbackUrl, p.callbackSecret,
          p.requestedSessionKeys, now, RegistrationStatus.pending⟩) ∧
    (∀ (w : WhitelistState) (p : RegisterPayload) (now : Int) (sk : String),
      canAgentAccessSession w p.agentId sk = true →
      canAgentAccessSession (registerAgent w p now) p.agentId sk = true) ∧
    (∀ (w : WhitelistState) (p : RegisterPayload) (now : Int),
      (∀ q ∈ w.registrations, q.2.agentId = q.1) →
      ∀ (sk : String) (reg : AgentRegistration),
        reg ∈ getApprovedRecipients (registerAgent w p now) sk → reg.agentId ≠ p.agentId) ∧
    (∀ (w : WhitelistState) (p : RegisterPayload) (now : Int),
      p.agentId ∈ w.approvedAgents →
      ¬(p.agentId ∈ (registerAgent w p now).approvedAgents ↔
        (assocGet (registerAgent w p now).registrations p.agentId).map
          AgentRegistration.status = some RegistrationStatus.approved)) := by
  have hb : ∀ (w : WhitelistState) (p : RegisterPayload) (now : Int),
      (registerAgent w p now).approvedAgents = w.approvedAgents ∧
      (registerAgent w p now).sessionsByAgent = w.sessionsByAgent ∧
      assocGet (registerAgent w p now).registrations p.agentId =
        some ⟨p.agentId, p.displayName, p.callbackUrl, p.callbackSecret,
          p.requestedSessionKeys, now, RegistrationStatus.pending⟩ := by
    intro w p now
    exact ⟨rfl, rfl, assocGet_assocSet_self _ _ _⟩
  refine ⟨?_, hb, ?_, ?_, ?_⟩
  · intro w w' h1 h2 aid sk
    unfold canAgentAccessSession
    rw [h1, h2]
  · intro w p now sk h
    exact h
  · intro w p now hwf sk reg hmem heq
    have hwf2 : ∀ q ∈ (registerAgent w p now).registrations, q.2.agentId = q.1 := by
      intro q hq
      rcases assocSet_mem w.registrations p.agentId _ q hq with hq | hq
      · rw [hq]
      · exact hwf q hq
    obtain ⟨aid, haid, hf⟩ := List.mem_filterMap.mp hmem
    by_cases hc : canAgentAccessSession (registerAgent w p now) aid sk
    · rw [if_pos hc] at hf
      cases hr : assocGet (registerAgent w p now).registrations aid with
      | none => rw [hr] at hf; cases hf
      | some r =>
        rw [hr] at hf
        dsimp only at hf
        by_cases hs : r.status = RegistrationStatus.approved
        · rw [if_pos hs] at hf
          cases hf
          have haid2 : reg.agentId = aid :=
            hwf2 (aid, reg) (assocGet_mem _ _ _ hr)
          rw [haid2] at heq
          subst heq
          rw [(hb w p now).2.2] at hr
          cases hr
          simp at hs
        · rw [if_neg hs] at hf
          cases hf
    · rw [if_neg hc] at hf
      cases hf
  · intro w p now hmem hiff
    have h1 : p.agentId ∈ (registerAgent w p now).approvedAgents := by
      rw [(hb w p now).1]
      exact hmem
    have h2 := hiff.mp h1
    rw [(hb w p now).2.2] at h2
    simp at h2

/-- C10 witness: after re-registering the approved agent-alpha, the access
check for its granted session still passes. -/
theorem register_keeps_grants_breaks_invariant_witness :
    canAgentAccessSession (registerAgent c10W c10P 50) c10P.agentId "s1" = true :=
  register_keeps_grants_breaks_invariant.2.2.1 c10W c10P 50 "s1" (by decide)

section TextLemmas

lemma ws_space : isJsWhitespace ' ' = true := by decide

lemma noDouble_tail (c : Char) (l : List Char) (h : noDouble (c :: l) = true) :
    noDouble l = true := by
  cases l with
  | nil => rfl
  | cons d ds =>
    simp only [noDouble, Bool.and_eq_true] at h
    exact h.2

lemma noDouble_cons (c0 : Char) (l : List Char)
    (h : ∀ d, l.head? = some d → c0 = ' ' → d ≠ ' ')
    (h2 : noDouble l = true) : noDouble (c0 :: l) = true := by
  cases l with
  | nil => rfl
  | cons d ds =>
    simp only [noDouble, Bool.and_eq_true]
    refine ⟨?_, h2⟩
    by_cases hc : c0 = ' '
    · have hd := h d rfl hc
      simp [hc, hd]
    · simp [hc]

lemma collapse_props : ∀ (l : List Char) (b : Bool),
    noDouble (collapseWsAux b l) = true ∧
    (∀ c, (collapseWsAux true l).head? = some c → isJsWhitespace c = false) := by
  intro l
  induction l with
  | nil =>
    intro b
    exact ⟨rfl, by intro c h; cases h⟩
  | cons c cs ih =>
    intro b
    by_cases hw : isJsWhitespace c
    · constructor
      · cases b with
        | true =>
          rw [show collapseWsAux true (c :: cs) = collapseWsAux true cs by
            rw [collapseWsAux]; rw [if_pos hw]; rfl]
          exact (ih true).1
        | false =>
          rw [show collapseWsAux false (c :: cs) = ' ' :: collapseWsAux true cs by
            rw [collapseWsAux]; rw [if_pos hw]; rfl]
          refine noDouble_cons ' ' _ ?_ (ih true).1
          intro d hd _
          intro hde
          have := (ih true).2 d hd
          rw [hde] at this
          rw [ws_space] at this
          cases this
      · intro c2 h
        rw [show collapseWsAux true (c :: cs) = collapseWsAux true cs by
          rw [collapseWsAux]; rw [if_pos hw]; rfl] at h
        exact (ih true).2 c2 h
    · have hstep : ∀ b2 : Bool, collapseWsAux b2 (c :: cs) = c :: collapseWsAux false cs := by
        intro b2
        rw [collapseWsAux]
        rw [if_neg hw]
      constructor
      · rw [hstep b]
        refine noDouble_cons c _ ?_ (ih false).1
        intro d _ hcq
        intro _
        exact hw (by rw [hcq]; exact ws_space)
      · intro c2 h
        rw [hstep true] at h
        simp only [List.head?_cons, Option.some_inj] at h
        rw [← h]
        exact Bool.eq_false_iff.mpr hw

lemma trimRightWs_decomp : ∀ l : List Char, ∃ s, trimRightWs l ++ s = l := by
  intro l
  induction l with
  | nil => exact ⟨[], rfl⟩
  | cons c cs ih =>
    rw [trimRightWs]
    cases htr : trimRightWs cs with
    | nil =>
      obtain ⟨s, hs⟩ := ih
      rw [htr] at hs
      simp only [List.nil_append] at hs
      by_cases hw : isJsWhitespace c
      · rw [if_pos hw]
        exact ⟨c :: cs, rfl⟩
      · rw [if_neg hw]
        exact ⟨cs, by rw [List.singleton_append]⟩
    | cons d ds =>
      obtain ⟨s, hs⟩ := ih
      rw [htr] at hs
      exact ⟨s, by rw [List.cons_append, hs]⟩

lemma noDouble_append_left : ∀ (l1 l2 : List Char),
    noDouble (l1 ++ l2) = true → noDouble l1 = true := by
  intro l1
  induction l1 with
  | nil => intro l2 _; rfl
  | cons c cs ih =>
    intro l2 h
    cases cs with
    | nil => rfl
    | cons d ds =>
      simp only [List.cons_append, noDouble, Bool.and_eq_true] at h ⊢
      exact ⟨h.1, by
        have := ih l2 (by simpa [List.cons_append] using h.2)
        exact this⟩

lemma noDouble_dropWhile (p : Char → Bool) : ∀ l : List Char,
    noDouble l = true → noDouble (l.dropWhile p) = true := by
  intro l
  induction l with
  | nil => intro _; rfl
  | cons c cs ih =>
    intro h
    rw [List.dropWhile_cons]
    by_cases hp : p c = true
    · rw [if_pos hp]
      exact ih (noDouble_tail c cs h)
    · rw [if_neg hp]
      exact h

lemma trimRightWs_last : ∀ (l : List Char) (c : Char),
    lastChar? (trimRightWs l) = some c → isJsWhitespace c = false := by
  intro l
  induction l with
  | nil => intro c h; cases h
  | cons c0 cs ih =>
    intro c h
    rw [trimRightWs] at h
    cases htr : trimRightWs cs with
    | nil =>
      rw [htr] at h
      by_cases hw : isJsWhitespace c0
      · rw [if_pos hw] at h
        cases h
      · rw [if_neg hw] at h
        simp only [lastChar?, Option.some_inj] at h
        rw [← h]
        exact Bool.eq_false_iff.mpr hw
    | cons d ds =>
      rw [htr] at h
      have h2 : lastChar? (trimRightWs cs) = some c := by
        rw [htr]
        exact h
      exact ih c h2

lemma trimRightWs_head : ∀ (c : Char) (cs : List Char),
    trimRightWs (c :: cs) = [] ∨ ∃ r, trimRightWs (c :: cs) = c :: r := by
  intro c cs
  rw [trimRightWs]
  cases htr : trimRightWs cs with
  | nil =>
    by_cases hw : isJsWhitespace c
    · rw [if_pos hw]
      exact Or.inl rfl
    · rw [if_neg hw]
      exact Or.inr ⟨[], rfl⟩
  | cons d ds => exact Or.inr ⟨d :: ds, rfl⟩

lemma head_dropWhile_not (p : Char → Bool) : ∀ (l : List Char) (c : Char),
    (l.dropWhile p).head? = some c → p c = false := by
  intro l
  induction l with
  | nil => intro c h; cases h
  | cons d ds ih =>
    intro c h
    rw [List.dropWhile_cons] at h
    by_cases hd : p d = true
    · rw [if_pos hd] at h
      exact ih c h
    · rw [if_neg hd] at h
      simp only [List.head?_cons, Option.some_inj] at h
      rw [← h]
      exact Bool.eq_false_iff.mpr hd

lemma splitSp_ne_nil : ∀ l : List Char, splitSp l ≠ [] := by
  intro l
  cases l with
  | nil => simp [splitSp]
  | cons c cs =>
    rw [splitSp]
    cases splitSp cs with
    | nil => simp
    | cons t ts =>
      dsimp only
      by_cases hc : c = ' '
      · rw [if_pos hc]
        simp
      · rw [if_neg hc]
        simp

lemma splitSp_no_empty : ∀ (n : Nat) (l : List Char), l.length ≤ n → l ≠ [] →
    (∀ c, l.head? = some c → c ≠ ' ') →
    noDouble l = true →
    (∀ c, lastChar? l = some c → c ≠ ' ') →
    [] ∉ splitSp l := by
  intro n
  induction n with
  | zero =>
    intro l hl hne
    cases l with
    | nil => exact absurd rfl hne
    | cons c cs => simp at hl
  | succ n ih =>
    intro l hl hne hhead hnd hlast
    cases l with
    | nil => exact absurd rfl hne
    | cons c cs =>
      have hc : c ≠ ' ' := hhead c rfl
      cases cs with
      | nil =>
        rw [show splitSp [c] = [[c]] by
          rw [splitSp, splitSp]; dsimp only; rw [if_neg hc]]
        simp
      | cons d ds =>
        by_cases hd : d = ' '
        · subst hd
          have hnd2 : noDouble (' ' :: ds) = true := noDouble_tail c _ hnd
          have hds_ne : ds ≠ [] := by
            intro hnil
            subst hnil
            exact hlast ' ' rfl rfl
          obtain ⟨e, es, rfl⟩ : ∃ e es, ds = e :: es := by
            cases ds with
            | nil => exact absurd rfl hds_ne
            | cons e es => exact ⟨e, es, rfl⟩
          have he : e ≠ ' ' := by
            intro hee
            simp only [noDouble, hee, Bool.and_eq_true, Bool.not_eq_true',
              Bool.and_eq_false_iff] at hnd2
            rcases hnd2.1 with h' | h' <;> simp at h'
          have hnd3 : noDouble (e :: es) = true := noDouble_tail ' ' _ hnd2
          have hlast3 : ∀ c2, lastChar? (e :: es) = some c2 → c2 ≠ ' ' := by
            intro c2 h2
            exact hlast c2 h2
          have hmem := ih (e :: es) (by simp only [List.length_cons] at hl ⊢; omega)
            (by simp)
            (by intro c2 h2
                simp only [List.head?_cons, Option.some_inj] at h2
                rw [← h2]
                exact he)
            hnd3 hlast3
          obtain ⟨t, ts, hts⟩ : ∃ t ts, splitSp (e :: es) = t :: ts := by
            cases h' : splitSp (e :: es) with
            | nil => exact absurd h' (splitSp_ne_nil _)
            | cons t ts => exact ⟨t, ts, rfl⟩
          have hsplit : splitSp (c :: ' ' :: e :: es) = [c] :: t :: ts := by
            rw [splitSp, show splitSp (' ' :: e :: es) = [] :: t :: ts by
              rw [splitSp, hts]; dsimp only; rw [if_pos rfl]]
            dsimp only
            rw [if_neg hc]
          rw [hsplit]
          intro hmem2
          rcases List.mem_cons.mp hmem2 with h' | h'
          · simp at h'
          · rw [← hts] at h'
            exact hmem h'
        · have hmem := ih (d :: ds) (by simp only [List.length_cons] at hl ⊢; omega)
            (by simp)
            (by intro c2 h2
                simp only [List.head?_cons, Option.some_inj] at h2
                rw [← h2]
                exact hd)
            (noDouble_tail c _ hnd)
            (by intro c2 h2
                exact hlast c2 h2)
          obtain ⟨t, ts, hts⟩ : ∃ t ts, splitSp (d :: ds) = t :: ts := by
            cases h' : splitSp (d :: ds) with
            | nil => exact absurd h' (splitSp_ne_nil _)
            | cons t ts => exact ⟨t, ts, rfl⟩
          have hsplit : splitSp (c :: d :: ds) = (c :: t) :: ts := by
            rw [splitSp, hts]
            dsimp only
            rw [if_neg hc]
          rw [hsplit]
          intro hmem2
          rcases List.mem_cons.mp hmem2 with h' | h'
          · simp at h'
          · rw [hts] at hmem
            exact hmem (List.mem_cons_of_mem _ h')

lemma normChars_clean (s : String) :
    normChars s = [] ∨
    (normChars s ≠ [] ∧ (∀ c, (normChars s).head? = some c → c ≠ ' ') ∧
      noDouble (normChars s) = true ∧
      (∀ c, lastChar? (normChars s) = some c → c ≠ ' ')) := by
  by_cases hz : normChars s = []
  · exact Or.inl hz
  · right
    refine ⟨hz, ?_, ?_, ?_⟩
    · intro c h
      unfold normChars trimWs at h hz
      cases hdl : (collapseWsAux false (s.data.map Char.toLower)).dropWhile isJsWhitespace with
      | nil =>
        rw [hdl] at hz
        exact absurd rfl hz
      | cons c0 cs0 =>
        rw [hdl] at h
        rcases trimRightWs_head c0 cs0 with h2 | ⟨r, h2⟩
        · rw [h2] at h
          cases h
        · rw [h2] at h
          simp only [List.head?_cons, Option.some_inj] at h
          have hp : isJsWhitespace c0 = false := by
            refine head_dropWhile_not isJsWhitespace
              (collapseWsAux false (s.data.map Char.toLower)) c0 ?_
            rw [hdl]
            rfl
          rw [← h]
          intro hce
          rw [hce, ws_space] at hp
          cases hp
    · unfold normChars trimWs
      obtain ⟨suf, hsuf⟩ := trimRightWs_decomp
        ((collapseWsAux false (s.data.map Char.toLower)).dropWhile isJsWhitespace)
      refine noDouble_append_left _ suf ?_
      rw [hsuf]
      exact noDouble_dropWhile isJsWhitespace _
        (collapse_props (s.data.map Char.toLower) false).1
    · intro c h
      unfold normChars trimWs at h
      have := trimRightWs_last _ c h
      intro hce
      rw [hce, ws_space] at this
      cases this

lemma splitSp_norm_no_empty (s : String) (h : normChars s ≠ []) :
    [] ∉ splitSp (normChars s) := by
  rcases normChars_clean s with h0 | ⟨-, hh, hnd, hl⟩
  · exact absurd h0 h
  · exact splitSp_no_empty (normChars s).length (normChars s) le_rfl h hh hnd hl

lemma ite_mkRat_zero (u : Nat) : (if u = 0 then (0 : ℚ) else mkRat 0 u) = 0 := by
  by_cases h : u = 0
  · rw [if_pos h]
  · rw [if_neg h]
    exact Rat.zero_mkRat u

end TextLemmas

/-- C8 counterexample: on two whitespace-only strings the claim requires 0,
but the code's `split(' ')` turns the empty normalized string into the
singleton token set containing the empty string, so `jaccard` returns 1 while
the reference definition returns 0. -/
theorem jaccard_whitespace_cex :
    jaccard " " " " = 1 ∧ jaccardRef " " " " = 0 ∧ jaccard " " " " ≠ jaccardRef " " " " :=
  ⟨by decide, by decide, by decide⟩

/-- C8 amended: `jaccard` agrees with the reference definition except when
both strings normalize to the empty character sequence (no tokens at all, as
for whitespace-only strings): splitting then yields the empty-string token on
both sides, the union is never empty, and the result is 1 instead of the
reference's 0. -/
theorem jaccard_eq_ref (a b : String) :
    jaccard a b = if normChars a = [] ∧ normChars b = [] then 1 else jaccardRef a b := by
  by_cases ha : normChars a = []
  · by_cases hb : normChars b = []
    · rw [if_pos ⟨ha, hb⟩]
      simp only [jaccard]
      rw [ha, hb]
      decide
    · rw [if_neg (fun h => hb h.2)]
      have hnb : [] ∉ (splitSp (normChars b)).dedup := by
        rw [List.mem_dedup]
        exact splitSp_norm_no_empty b hb
      have hL : jaccard a b = 0 := by
        simp only [jaccard]
        rw [ha]
        rw [show (splitSp ([] : List Char)).dedup = [[]] from by decide]
        have hfilter : (([[]] : List (List Char)).filter
            (fun x => decide (x ∈ (splitSp (normChars b)).dedup))).length = 0 := by
          rw [List.length_eq_zero, List.filter_eq_nil_iff]
          intro x hx h2
          rw [List.mem_singleton] at hx
          rw [decide_eq_true_eq] at h2
          subst hx
          exact hnb h2
        rw [hfilter]
        exact ite_mkRat_zero _
      have hR : jaccardRef a b = 0 := by
        simp only [jaccardRef]
        rw [ha]
        rw [show (splitSp ([] : List Char)).filter (fun x => decide (x ≠ [])) = []
          from by decide]
        simp only [List.dedup_nil, List.filter_nil, List.length_nil]
        exact ite_mkRat_zero _
      rw [hL, hR]
  · by_cases hb : normChars b = []
    · rw [if_neg (fun h => ha h.1)]
      have hna : [] ∉ (splitSp (normChars a)).dedup := by
        rw [List.mem_dedup]
        exact splitSp_norm_no_empty a ha
      have hL : jaccard a b = 0 := by
        simp only [jaccard]
        rw [hb]
        rw [show (splitSp ([] : List Char)).dedup = [[]] from by decide]
        have hfilter : ((splitSp (normChars a)).dedup.filter
            (fun x => decide (x ∈ ([[]] : List (List Char))))).length = 0 := by
          rw [List.length_eq_zero, List.filter_eq_nil_iff]
          intro x hx h2
          rw [decide_eq_true_eq, List.mem_singleton] at h2
          subst h2
          exact hna hx
        rw [hfilter]
        exact ite_mkRat_zero _
      have hR : jaccardRef a b = 0 := by
        simp only [jaccardRef]
        rw [hb]
        rw [show (splitSp ([] : List Char)).filter (fun x => decide (x ≠ [])) = []
          from by decide]
        simp only [List.dedup_nil]
        have hfilter : ((((splitSp (normChars a)).filter
            (fun x => decide (x ≠ []))).dedup).filter
            (fun x => decide (x ∈ ([] : List (List Char))))).length = 0 := by
          rw [List.length_eq_zero, List.filter_eq_nil_iff]
          intro x hx h2
          rw [decide_eq_true_eq] at h2
          exact (List.not_mem_nil x) h2
        rw [hfilter]
        exact ite_mkRat_zero _
      rw [hL, hR]
    · rw [if_neg (fun h => ha h.1)]
      have hfa : (splitSp (normChars a)).filter (fun x => decide (x ≠ [])) =
          splitSp (normChars a) := by
        rw [List.filter_eq_self]
        intro x hx
        rw [decide_eq_true_eq]
        intro hxe
        subst hxe
        exact splitSp_norm_no_empty a ha hx
      have hfb : (splitSp (normChars b)).filter (fun x => decide (x ≠ [])) =
          splitSp (normChars b) := by
        rw [List.filter_eq_self]
        intro x hx
        rw [decide_eq_true_eq]
        intro hxe
        subst hxe
        exact splitSp_norm_no_empty b hb hx
      simp only [jaccard, jaccardRef]
      rw [hfa, hfb]

/-- C8 amended witness: a whitespace-only string against a one-token string —
the normalized forms are not both empty and the two definitions agree. -/
theorem jaccard_eq_ref_witness :
    jaccard " " "x" = if normChars " " = [] ∧ normChars "x" = [] then 1
      else jaccardRef " " "x" :=
  jaccard_eq_ref " " "x"

end Relay
